import Mathlib

/-!
Shallow embedding of the wealth-pulse ledger parser (src/src/main.rs), a
top-down parser built from combinator semantics in the style of the Rust
combine library: every parser consumes a prefix of the remaining input and
returns either a value with the unconsumed remainder, or a failure carrying
a position, together with a flag recording whether any input was consumed.
A Rust panic (to_digit(10).expect, str::parse().unwrap()) is modelled as a
distinguished third outcome.
-/

set_option maxRecDepth 20000

namespace WealthPulse

/-- Source position: 1-based line and column, as tracked by the parsing
library the program uses (the column advances by one per character and a
line feed starts a new line at column one). -/
structure Pos where
  line : Nat
  col : Nat
deriving DecidableEq, Repr

def Pos.next (p : Pos) (c : Char) : Pos :=
  if c = '\n' then { line := p.line + 1, col := 1 }
  else { line := p.line, col := p.col + 1 }

/-- Position reached after consuming a list of characters. -/
def Pos.advance (p : Pos) (l : List Char) : Pos := l.foldl Pos.next p

/-- Order on positions (line, then column), used when merging the errors of
two alternatives that both failed without consuming input: the error at the
greater position wins. -/
def Pos.le (p q : Pos) : Bool :=
  p.line < q.line || (p.line == q.line && p.col ≤ q.col)

def Pos.max (p q : Pos) : Pos := if Pos.le p q then q else p

/-- Parser state: current position and remaining input. -/
structure PState where
  pos : Pos
  input : List Char
deriving DecidableEq, Repr

/-- Outcome of a parser: success or failure, each recording whether input
was consumed, plus the panic outcome for Rust aborts. -/
inductive PResult (α : Type) where
  | ok (consumed : Bool) (a : α) (s : PState)
  | err (consumed : Bool) (pos : Pos)
  | panic
deriving DecidableEq, Repr

abbrev Parser (α : Type) : Type := PState → PResult α

/-- Consumes one character satisfying the predicate; fails without
consuming otherwise. -/
def satisfy (p : Char → Bool) : Parser Char := fun s =>
  match s.input with
  | [] => .err false s.pos
  | c :: rest =>
      if p c then .ok true c { pos := s.pos.next c, input := rest }
      else .err false s.pos

def pchar (c : Char) : Parser Char := satisfy (fun d => d == c)

/-- Sequencing: combine's tuple/and_then semantics. The consumed flags are
joined with or; a failure after earlier consumption is a consumed failure. -/
def pbind {α β : Type} (p : Parser α) (f : α → Parser β) : Parser β := fun s =>
  match p s with
  | .ok c a s₁ =>
      (match f a s₁ with
       | .ok c₂ b s₂ => .ok (c || c₂) b s₂
       | .err c₂ pos => .err (c || c₂) pos
       | .panic => .panic)
  | .err c pos => .err c pos
  | .panic => .panic

def pmap {α β : Type} (f : α → β) (p : Parser α) : Parser β := fun s =>
  match p s with
  | .ok c a s₁ => .ok c (f a) s₁
  | .err c pos => .err c pos
  | .panic => .panic

/-- Applies a semantic action that can panic (Rust expect/unwrap inside a
map): none means the process aborts. -/
def pmapPanic {α β : Type} (f : α → Option β) (p : Parser α) : Parser β := fun s =>
  match p s with
  | .ok c a s₁ =>
      (match f a with
       | some b => .ok c b s₁
       | none => .panic)
  | .err c pos => .err c pos
  | .panic => .panic

/-- Choice: combine's or. The second alternative is tried only when the
first failed without consuming input; two empty failures merge by keeping
the furthest position. -/
def por {α : Type} (p q : Parser α) : Parser α := fun s =>
  match p s with
  | .ok c a s₁ => .ok c a s₁
  | .panic => .panic
  | .err true pos => .err true pos
  | .err false pos₁ =>
      (match q s with
       | .ok c a s₁ => .ok c a s₁
       | .err true pos₂ => .err true pos₂
       | .err false pos₂ => .err false (Pos.max pos₁ pos₂)
       | .panic => .panic)

/-- combine's optional: an empty failure yields none, a consumed failure
propagates. -/
def poptional {α : Type} (p : Parser α) : Parser (Option α) := fun s =>
  match p s with
  | .ok c a s₁ => .ok c (some a) s₁
  | .err false _ => .ok false none s
  | .err true pos => .err true pos
  | .panic => .panic

/-- combine's skip: run both, keep the first result. -/
def pskip {α β : Type} (p : Parser α) (q : Parser β) : Parser α :=
  pbind p (fun a => pmap (fun _ => a) q)

/-- combine's with: run both, keep the second result. -/
def pwith {α β : Type} (p : Parser α) (q : Parser β) : Parser β :=
  pbind p (fun _ => q)

/-- Zero-or-more loop, fuelled; a non-consuming success would diverge in
the source library and is modelled as panic (it never occurs: every parser
iterated here consumes on success, so the initial fuel suffices). -/
def manyAux {α : Type} (p : Parser α) : Nat → PState → PResult (List α)
  | 0, _ => .panic
  | fuel + 1, s =>
      match p s with
      | .panic => .panic
      | .err true pos => .err true pos
      | .err false _ => .ok false [] s
      | .ok _ a s₁ =>
          (match manyAux p fuel s₁ with
           | .ok _ as s₂ => .ok true (a :: as) s₂
           | .err _ pos => .err true pos
           | .panic => .panic)

def many {α : Type} (p : Parser α) : Parser (List α) := fun s =>
  manyAux p (s.input.length + 1) s

def many1 {α : Type} (p : Parser α) : Parser (List α) :=
  pbind p (fun a => pmap (fun as => a :: as) (many p))

/-- combine's sep_by: zero or more p separated by sep. An empty failure of
the first p yields the empty list; once a separator has consumed, the next
p must succeed. -/
def sepBy {α β : Type} (p : Parser α) (sep : Parser β) : Parser (List α) := fun s =>
  match p s with
  | .err false _ => .ok false [] s
  | .err true pos => .err true pos
  | .panic => .panic
  | .ok c a s₁ =>
      (match many (pwith sep p) s₁ with
       | .ok c₂ as s₂ => .ok (c || c₂) (a :: as) s₂
       | .err c₂ pos => .err (c || c₂) pos
       | .panic => .panic)

/-! ## Data model (main.rs lines 10-59) -/

inductive AmountFormat where
  | SymbolLeftNoSpace
  | SymbolLeftWithSpace
  | SymbolRightNoSpace
  | SymbolRightWithSpace
deriving DecidableEq, Repr

inductive TransactionStatus where
  | Cleared
  | Uncleared
deriving DecidableEq, Repr

structure Date where
  year : Int
  month : Int
  day : Int
deriving DecidableEq, Repr

structure Header where
  line_number : Int
  date : Date
  status : TransactionStatus
  code : Option (List Char)
  payee : List Char
  comment : Option (List Char)
deriving DecidableEq, Repr

structure Symbol where
  value : List Char
  quoted : Bool
deriving DecidableEq, Repr

structure Amount where
  value : List Char
  symbol : Symbol
  format : AmountFormat
deriving DecidableEq, Repr

structure Price where
  date : Date
  symbol : Symbol
  amount : Amount
deriving DecidableEq, Repr

/-! ## The grammar (main.rs lines 63-861) -/

/-- line_number: observes the current 1-based line without consuming. -/
def line_number : Parser Int := fun s => .ok false (s.pos.line : Int) s

/-- whitespace: one or more of space or tab. -/
def whitespace : Parser (List Char) :=
  many1 (satisfy (fun c => c == ' ' || c == '\t'))

/-- crlf from the library: a carriage return followed by a line feed,
yielding the line feed. -/
def crlf : Parser Char := pwith (satisfy (fun c => c == '\r')) (pchar '\n')

/-- line_ending: a Windows or Unix line ending, normalized. -/
def line_ending : Parser (List Char) :=
  por (pmap (fun c => [c]) crlf) (pmap (fun c => [c]) (pchar '\n'))

/-- Rust char::to_digit(10). -/
def charToDigit (c : Char) : Option Nat :=
  if c.isDigit then some (c.toNat - 48) else none

/-- two_digits_to_int: the conversion applied to the pair of digit
characters; to_digit(10).expect panics on a non-digit, modelled as none. -/
def two_digits_to_int (xy : Char × Char) : Option Int :=
  match charToDigit xy.1, charToDigit xy.2 with
  | some x, some y => some ((x * 10 + y : Nat) : Int)
  | _, _ => none

/-- two_digits: two digit characters converted by two_digits_to_int. -/
def two_digits : Parser Int :=
  pmapPanic two_digits_to_int
    (pbind (satisfy Char.isDigit) (fun x =>
      pmap (fun y => (x, y)) (satisfy Char.isDigit)))

/-- Rust str::parse::<i32> on the digit strings produced by many(digit()):
the empty string and out-of-range values give none, which the program
unwraps into a panic. -/
def parseI32 (l : List Char) : Option Int :=
  if l = [] then none
  else if l.all Char.isDigit then
    (if (l.foldl (fun acc c => acc * 10 + (c.toNat - 48)) 0) ≤ 2147483647 then
      some ((l.foldl (fun acc c => acc * 10 + (c.toNat - 48)) 0 : Nat) : Int)
    else none)
  else none

/-- date: many(digit) then a dash, two digits, a dash, two digits; the
year text goes through parse().unwrap(). -/
def date : Parser Date :=
  pbind (many (satisfy Char.isDigit)) (fun year =>
  pbind (pchar '-') (fun _ =>
  pbind two_digits (fun month =>
  pbind (pchar '-') (fun _ =>
  pmapPanic (fun day => (parseI32 year).map (fun y => Date.mk y month day))
    two_digits))))

/-- status: a star is Cleared, a bang is Uncleared. -/
def status : Parser TransactionStatus :=
  por (pmap (fun _ => TransactionStatus.Cleared) (pchar '*'))
      (pmap (fun _ => TransactionStatus.Uncleared) (pchar '!'))

/-- code: a parenthesized run of characters other than CR, LF and the
closing parenthesis. -/
def code : Parser (List Char) :=
  pbind (pchar '(') (fun _ =>
  pbind (many (satisfy (fun c => !(c == '\r') && !(c == '\n') && !(c == ')'))))
    (fun body =>
  pmap (fun _ => body) (pchar ')')))

/-- payee: one or more characters other than semicolon, LF, CR. -/
def payee : Parser (List Char) :=
  many1 (satisfy (fun c => !(c == ';') && !(c == '\n') && !(c == '\r')))

/-- comment: a semicolon, then any characters other than CR and LF. -/
def comment : Parser (List Char) :=
  pbind (pchar ';') (fun _ =>
  many (satisfy (fun c => !(c == '\r') && !(c == '\n'))))

/-- header: line number, date, status, optional code, payee, optional
comment (main.rs lines 347-368). -/
def header : Parser Header :=
  pbind line_number (fun ln =>
  pbind (pskip date whitespace) (fun d =>
  pbind (pskip status whitespace) (fun st =>
  pbind (poptional (pskip code whitespace)) (fun cd =>
  pbind payee (fun py =>
  pmap (fun cm => Header.mk ln d st cd py cm) (poptional comment))))))

def quantityChar (c : Char) : Bool := c.isDigit || c == ',' || c == '.'

/-- String::replace of every comma by the empty string. -/
def removeCommas (l : List Char) : List Char := l.filter (fun c => !(c == ','))

/-- quantity: an optional minus sign, one digit, then digits, commas and
periods; the commas are stripped from the assembled text. -/
def quantity : Parser (List Char) :=
  pbind (pmap (fun o => match o with | some _ => ['-'] | none => ([] : List Char))
    (poptional (pchar '-'))) (fun neg =>
  pbind (satisfy (fun c => c.isDigit)) (fun d =>
  pmap (fun ds => removeCommas (neg ++ d :: ds)) (many (satisfy quantityChar))))

/-- quoted_symbol: a double quote, one or more characters other than a
double quote, CR, LF, then a closing double quote. -/
def quoted_symbol : Parser Symbol :=
  pbind (pchar '\"') (fun _ =>
  pbind (many1 (satisfy (fun c => !(c == '\"') && !(c == '\r') && !(c == '\n'))))
    (fun v =>
  pmap (fun _ => Symbol.mk v true) (pchar '\"')))

/-- The character set of an unquoted symbol: everything except the
characters of the exclusion string of the source. -/
def unquotedSymbolChar (c : Char) : Bool :=
  "-0123456789; \"\t\r\n".toList.all (fun s => !(s == c))

def unquoted_symbol : Parser Symbol :=
  pmap (fun v => Symbol.mk v false) (many1 (satisfy unquotedSymbolChar))

/-- symbol: quoted form first, unquoted as fallback. -/
def symbol : Parser Symbol := por quoted_symbol unquoted_symbol

/-- amount_symbol_then_quantity: symbol, optional whitespace, quantity. -/
def amount_symbol_then_quantity : Parser Amount :=
  pbind symbol (fun sym =>
  pbind (poptional whitespace) (fun ow =>
  pmap (fun q =>
    Amount.mk q sym
      (match ow with
       | some _ => AmountFormat.SymbolLeftWithSpace
       | none => AmountFormat.SymbolLeftNoSpace)) quantity))

/-- amount_quantity_then_symbol: quantity, optional whitespace, symbol. -/
def amount_quantity_then_symbol : Parser Amount :=
  pbind quantity (fun q =>
  pbind (poptional whitespace) (fun ow =>
  pmap (fun sym =>
    Amount.mk q sym
      (match ow with
       | some _ => AmountFormat.SymbolRightWithSpace
       | none => AmountFormat.SymbolRightNoSpace)) symbol))

/-- amount: symbol-first alternative tried first. -/
def amount : Parser Amount := por amount_symbol_then_quantity amount_quantity_then_symbol

/-- price: a literal P, then date, symbol and amount, each preceded by
mandatory whitespace. -/
def price : Parser Price :=
  pbind (pskip (pchar 'P') whitespace) (fun _ =>
  pbind (pskip date whitespace) (fun d =>
  pbind (pskip symbol whitespace) (fun sym =>
  pmap (fun a => Price.mk d sym a) amount)))

/-- price_db: price records separated by line endings. -/
def price_db : Parser (List Price) := sepBy price line_ending

/-- Initial parser state for a given text: position line 1, column 1. -/
def initState (t : String) : PState :=
  { pos := { line := 1, col := 1 }, input := t.toList }

/-- A line of the price database: text that the price parser consumes
exactly, producing the given record, whenever the text is followed by
nothing or by a line feed. -/
def PriceLine (r : List Char) (P : Price) : Prop :=
  ∀ (pos : Pos) (rest : List Char), rest = [] ∨ rest.head? = some '\n' →
    price { pos := pos, input := r ++ rest } =
      .ok true P { pos := pos.advance r, input := rest }

/-- The text of the records of a price database after the first: each
record preceded by exactly one line feed. -/
def sepText : List (List Char) → List Char
  | [] => []
  | r :: rs => '\n' :: (r ++ sepText rs)

/-- The text of a price database: records separated by exactly one line
ending each. -/
def dbText : List (List Char) → List Char
  | [] => []
  | r :: rs => r ++ sepText rs

/-- A concrete price-database record used to exercise the price grammar. -/
def exampleRecord : List Char := "P 2015-10-25 \"MUTF2351\" $5.42".toList

/-- The record that exampleRecord parses to. -/
def examplePrice : Price :=
  Price.mk (Date.mk 2015 10 25) (Symbol.mk "MUTF2351".toList true)
    (Amount.mk "5.42".toList (Symbol.mk "$".toList false) AmountFormat.SymbolLeftNoSpace)

/-! ## Helper lemmas -/

lemma char_eq_of_toNat_eq (c d : Char) (h : c.val.toNat = d.val.toNat) : c = d :=
  Char.ext (UInt32.toNat.inj h)

lemma digit_char_cases (c : Char) (h : c.isDigit = true) :
    c = '0' ∨ c = '1' ∨ c = '2' ∨ c = '3' ∨ c = '4' ∨ c = '5' ∨
    c = '6' ∨ c = '7' ∨ c = '8' ∨ c = '9' := by
  simp [Char.isDigit] at h
  obtain ⟨h1, h2⟩ := h
  have hn1 : 48 ≤ c.val.toNat := h1
  have hn2 : c.val.toNat ≤ 57 := h2
  interval_cases hv : c.val.toNat <;>
  [ exact Or.inl (char_eq_of_toNat_eq c '0' (hv.trans (by decide)));
    exact Or.inr (Or.inl (char_eq_of_toNat_eq c '1' (hv.trans (by decide))));
    exact Or.inr (Or.inr (Or.inl (char_eq_of_toNat_eq c '2' (hv.trans (by decide)))));
    exact Or.inr (Or.inr (Or.inr (Or.inl (char_eq_of_toNat_eq c '3' (hv.trans (by decide))))));
    exact Or.inr (Or.inr (Or.inr (Or.inr (Or.inl
      (char_eq_of_toNat_eq c '4' (hv.trans (by decide)))))));
    exact Or.inr (Or.inr (Or.inr (Or.inr (Or.inr (Or.inl
      (char_eq_of_toNat_eq c '5' (hv.trans (by decide))))))));
    exact Or.inr (Or.inr (Or.inr (Or.inr (Or.inr (Or.inr (Or.inl
      (char_eq_of_toNat_eq c '6' (hv.trans (by decide)))))))));
    exact Or.inr (Or.inr (Or.inr (Or.inr (Or.inr (Or.inr (Or.inr (Or.inl
      (char_eq_of_toNat_eq c '7' (hv.trans (by decide))))))))));
    exact Or.inr (Or.inr (Or.inr (Or.inr (Or.inr (Or.inr (Or.inr (Or.inr (Or.inl
      (char_eq_of_toNat_eq c '8' (hv.trans (by decide)))))))))));
    exact Or.inr (Or.inr (Or.inr (Or.inr (Or.inr (Or.inr (Or.inr (Or.inr (Or.inr
      (char_eq_of_toNat_eq c '9' (hv.trans (by decide)))))))))))]

lemma digit_not_unquoted (c : Char) (h : c.isDigit = true) :
    unquotedSymbolChar c = false := by
  rcases digit_char_cases c h with h' | h' | h' | h' | h' | h' | h' | h' | h' | h' <;>
    subst h' <;> decide

lemma digit_ne_quote (c : Char) (h : c.isDigit = true) : (c == '\"') = false := by
  rcases digit_char_cases c h with h' | h' | h' | h' | h' | h' | h' | h' | h' | h' <;>
    subst h' <;> decide

lemma digit_ne_minus (c : Char) (h : c.isDigit = true) : (c == '-') = false := by
  rcases digit_char_cases c h with h' | h' | h' | h' | h' | h' | h' | h' | h' | h' <;>
    subst h' <;> decide

lemma digit_not_comma (c : Char) (h : c.isDigit = true) : (!(c == ',')) = true := by
  rcases digit_char_cases c h with h' | h' | h' | h' | h' | h' | h' | h' | h' | h' <;>
    subst h' <;> decide

lemma satisfy_ok {p : Char → Bool} {s : PState} {c : Bool} {a : Char} {s' : PState}
    (h : satisfy p s = .ok c a s') :
    s.input = a :: s'.input ∧ p a = true ∧ c = true ∧
      s'.pos = s.pos.next a := by
  obtain ⟨spos, sinput⟩ := s
  obtain ⟨tpos, tinput⟩ := s'
  unfold satisfy at h
  rcases hs : sinput with _ | ⟨x, rest⟩ <;> subst hs <;> simp at h
  by_cases hp : p x <;> simp [hp] at h
  obtain ⟨hc, ha, hpos, hin⟩ := h
  subst ha; subst hpos; subst hin
  exact ⟨rfl, hp, hc, rfl⟩

lemma manyAux_satisfy (p : Char → Bool) :
    ∀ (fuel : Nat) (s : PState), s.input.length < fuel →
      manyAux (satisfy p) fuel s =
        .ok (!(s.input.takeWhile p).isEmpty) (s.input.takeWhile p)
          { pos := s.pos.advance (s.input.takeWhile p), input := s.input.dropWhile p } := by
  intro fuel
  induction fuel with
  | zero => intro s hs; omega
  | succ n ih =>
    rintro ⟨spos, sinput⟩ hs
    rcases hin : sinput with _ | ⟨c, rest⟩ <;> subst hin
    · simp [manyAux, satisfy, Pos.advance]
    · by_cases hp : p c
      · have hrest : ({ pos := spos.next c, input := rest } : PState).input.length < n := by
          simpa using hs
        have hih := ih { pos := spos.next c, input := rest } hrest
        simp only [manyAux, satisfy, hp, if_pos]
        rw [hih]
        simp [hp, List.takeWhile_cons, List.dropWhile_cons, Pos.advance]
      · simp [manyAux, satisfy, hp, Pos.advance, List.takeWhile_cons, List.dropWhile_cons]


lemma many_satisfy (p : Char → Bool) (s : PState) :
    many (satisfy p) s =
      .ok (!(s.input.takeWhile p).isEmpty) (s.input.takeWhile p)
        { pos := s.pos.advance (s.input.takeWhile p), input := s.input.dropWhile p } :=
  manyAux_satisfy p (s.input.length + 1) s (Nat.lt_succ_self _)

lemma pbind_ok {α β : Type} {p : Parser α} {f : α → Parser β} {s : PState}
    {c : Bool} {b : β} {s' : PState} (h : pbind p f s = .ok c b s') :
    ∃ c₁ a s₁ c₂, p s = .ok c₁ a s₁ ∧ f a s₁ = .ok c₂ b s' ∧ c = (c₁ || c₂) := by
  unfold pbind at h
  split at h
  next c₁ a s₁ hp =>
    split at h
    next c₂ b₂ s₂ hf =>
      simp at h
      obtain ⟨hc, hb, hs⟩ := h
      subst hb; subst hs
      exact ⟨c₁, a, s₁, c₂, hp, hf, hc.symm⟩
    next => simp at h
    next => simp at h
  next => simp at h
  next => simp at h

lemma pmap_ok {α β : Type} {f : α → β} {p : Parser α} {s : PState}
    {c : Bool} {b : β} {s' : PState} (h : pmap f p s = .ok c b s') :
    ∃ a, p s = .ok c a s' ∧ b = f a := by
  unfold pmap at h
  split at h
  next c₁ a s₁ hp =>
    simp at h
    obtain ⟨hc, hb, hs⟩ := h
    subst hc; subst hs; subst hb
    exact ⟨a, hp, rfl⟩
  next => simp at h
  next => simp at h

lemma poptional_ok {α : Type} {p : Parser α} {s : PState}
    {c : Bool} {v : Option α} {s' : PState} (h : poptional p s = .ok c v s') :
    (∃ a, p s = .ok c a s' ∧ v = some a) ∨ (v = none ∧ c = false ∧ s' = s) := by
  unfold poptional at h
  split at h
  next c₁ a s₁ hp =>
    simp at h
    obtain ⟨hc, hv, hs⟩ := h
    subst hc; subst hs
    exact Or.inl ⟨a, hp, hv.symm⟩
  next hp =>
    simp at h
    obtain ⟨hc, hv, hs⟩ := h
    exact Or.inr ⟨hv.symm, hc, hs.symm⟩
  next => simp at h
  next => simp at h

/-- C9: for every two decimal digits the two-digit lexer succeeds and
returns exactly tens times ten plus ones; it fails whenever fewer than two
digits are available at the current position (a leading non-digit, a
single digit followed by a non-digit, or a single digit at end of
input). -/
theorem two_digits_spec :
    (∀ (x y : Char) (rest : List Char) (pos : Pos),
      x.isDigit = true → y.isDigit = true →
      two_digits { pos := pos, input := x :: y :: rest } =
        .ok true (((x.toNat - 48) * 10 + (y.toNat - 48) : Nat) : Int)
          { pos := (pos.next x).next y, input := rest }) ∧
    (∀ (x : Char) (rest : List Char) (pos : Pos),
      x.isDigit = false →
      two_digits { pos := pos, input := x :: rest } = .err false pos) ∧
    (∀ (x y : Char) (rest : List Char) (pos : Pos),
      x.isDigit = true → y.isDigit = false →
      two_digits { pos := pos, input := x :: y :: rest } = .err true (pos.next x)) ∧
    (∀ (x : Char) (pos : Pos), x.isDigit = true →
      two_digits { pos := pos, input := [x] } = .err true (pos.next x)) ∧
    (∀ (pos : Pos), two_digits { pos := pos, input := [] } = .err false pos) := by
  refine ⟨?_, ?_, ?_, ?_, ?_⟩
  · intro x y rest pos hx hy
    simp [two_digits, pmapPanic, pbind, pmap, satisfy, hx, hy, two_digits_to_int,
      charToDigit, Char.toNat]
  · intro x rest pos hx
    simp [two_digits, pmapPanic, pbind, pmap, satisfy, hx]
  · intro x y rest pos hx hy
    simp [two_digits, pmapPanic, pbind, pmap, satisfy, hx, hy]
  · intro x pos hx
    simp [two_digits, pmapPanic, pbind, pmap, satisfy, hx]
  · intro pos
    simp [two_digits, pmapPanic, pbind, pmap, satisfy]

/-! ## Claims -/

/-- C1: the date parser aborts on the input "-10-17": its year field is
many(digit()), zero or more digits, so the empty year reaches
parse().unwrap(), which panics; the parse does not return a positioned
syntax failure there, contradicting the digit-plus year grammar and the
abort-free propagation policy. -/
theorem date_empty_year_panics :
    date (initState "-10-17") = PResult.panic := by decide

/-- C2: the amount parser assigns the four AmountFormat values to the four
input shapes, with comma-stripped quantity, correct symbol and quoted
flag. -/
theorem amount_four_formats :
    amount (initState "$13,245.00") =
      .ok true
        { value := "13245.00".toList, symbol := { value := "$".toList, quoted := false },
          format := .SymbolLeftNoSpace }
        { pos := { line := 1, col := 11 }, input := [] } ∧
    amount (initState "$ 13,245.00") =
      .ok true
        { value := "13245.00".toList, symbol := { value := "$".toList, quoted := false },
          format := .SymbolLeftWithSpace }
        { pos := { line := 1, col := 12 }, input := [] } ∧
    amount (initState "13,245.463AAPL") =
      .ok true
        { value := "13245.463".toList, symbol := { value := "AAPL".toList, quoted := false },
          format := .SymbolRightNoSpace }
        { pos := { line := 1, col := 15 }, input := [] } ∧
    amount (initState "13,245.463 \"MUTF2351\"") =
      .ok true
        { value := "13245.463".toList,
          symbol := { value := "MUTF2351".toList, quoted := true },
          format := .SymbolRightWithSpace }
        { pos := { line := 1, col := 22 }, input := [] } := by decide

/-- C4: the header parser on the full input yields line 1, the date
2015-10-20, Cleared, the code, the payee with trailing space retained, and
the comment; omitting the code, or the comment, leaves exactly that field
absent and everything else unchanged. -/
theorem header_round_trip :
    header (initState "2015-10-20 * (conf# abc-123) Payee ;Comment") =
      .ok true
        { line_number := 1, date := { year := 2015, month := 10, day := 20 },
          status := .Cleared, code := some "conf# abc-123".toList,
          payee := "Payee ".toList, comment := some "Comment".toList }
        { pos := { line := 1, col := 44 }, input := [] } ∧
    header (initState "2015-10-20 * Payee ;Comment") =
      .ok true
        { line_number := 1, date := { year := 2015, month := 10, day := 20 },
          status := .Cleared, code := none,
          payee := "Payee ".toList, comment := some "Comment".toList }
        { pos := { line := 1, col := 28 }, input := [] } ∧
    header (initState "2015-10-20 * (conf# abc-123) Payee ") =
      .ok true
        { line_number := 1, date := { year := 2015, month := 10, day := 20 },
          status := .Cleared, code := some "conf# abc-123".toList,
          payee := "Payee ".toList, comment := none }
        { pos := { line := 1, col := 36 }, input := [] } := by decide

/-- C5: quantity strips every comma and keeps sign, digits and periods
verbatim; a quantity with several periods is lexically accepted and
returned verbatim. -/
theorem quantity_normalization :
    quantity (initState "-1,110.38") =
      .ok true "-1110.38".toList { pos := { line := 1, col := 10 }, input := [] } ∧
    quantity (initState "2,314") =
      .ok true "2314".toList { pos := { line := 1, col := 6 }, input := [] } ∧
    quantity (initState "24521.793") =
      .ok true "24521.793".toList { pos := { line := 1, col := 10 }, input := [] } ∧
    quantity (initState "1.2.3") =
      .ok true "1.2.3".toList { pos := { line := 1, col := 6 }, input := [] } := by decide

lemma Pos.max_self (p : Pos) : Pos.max p p = p := by
  simp [Pos.max, Pos.le]

lemma aqs_format {s : PState} {cns : Bool} {a : Amount} {s' : PState}
    (h : amount_quantity_then_symbol s = .ok cns a s') :
    a.format = AmountFormat.SymbolRightNoSpace ∨
    a.format = AmountFormat.SymbolRightWithSpace := by
  obtain ⟨c₁, q, s₁, c₂, hq, h₂, hc⟩ := pbind_ok h
  obtain ⟨c₃, ow, s₂, c₄, how, h₃, hc'⟩ := pbind_ok h₂
  obtain ⟨sym, hsym, hb⟩ := pmap_ok h₃
  subst hb
  cases ow <;> simp

lemma symbol_digit_err (pos : Pos) (c : Char) (rest : List Char)
    (hc : c.isDigit = true) :
    symbol { pos := pos, input := c :: rest } = .err false pos := by
  have h1 : (c == '\"') = false := digit_ne_quote c hc
  have h2 : unquotedSymbolChar c = false := digit_not_unquoted c hc
  simp [symbol, por, quoted_symbol, unquoted_symbol, many1, pbind, pmap, pchar, satisfy,
    h1, h2, Pos.max_self]

/-- C3: on any input whose first character is a decimal digit, a successful
amount parse yields a SymbolRight format: the symbol-first alternative,
though tried first, fails without consuming because both symbol grammars
exclude a leading digit. -/
theorem amount_digit_leading (c : Char) (rest : List Char) (pos : Pos)
    (hdig : c.isDigit = true) (cns : Bool) (a : Amount) (s' : PState)
    (h : amount { pos := pos, input := c :: rest } = .ok cns a s') :
    a.format = AmountFormat.SymbolRightNoSpace ∨
    a.format = AmountFormat.SymbolRightWithSpace := by
  have hsym := symbol_digit_err pos c rest hdig
  have hast : amount_symbol_then_quantity { pos := pos, input := c :: rest } =
      .err false pos := by
    unfold amount_symbol_then_quantity pbind
    simp only [hsym]
  unfold amount por at h
  simp only [hast] at h
  rcases haqs : amount_quantity_then_symbol { pos := pos, input := c :: rest } with
      ⟨c₂, a₂, s₂⟩ | ⟨c₂, p₂⟩ | _ <;> simp only [haqs] at h
  · simp at h
    obtain ⟨hc2, ha, hs⟩ := h
    subst ha
    exact aqs_format haqs
  · cases c₂ <;> simp at h
  · simp at h

theorem amount_digit_leading_witness :
    amount (initState "1AAPL") =
      .ok true
        { value := ['1'], symbol := { value := "AAPL".toList, quoted := false },
          format := .SymbolRightNoSpace }
        { pos := { line := 1, col := 6 }, input := [] } ∧
    (AmountFormat.SymbolRightNoSpace = AmountFormat.SymbolRightNoSpace ∨
     AmountFormat.SymbolRightNoSpace = AmountFormat.SymbolRightWithSpace) := by
  constructor
  · decide
  · exact amount_digit_leading '1' "AAPL".toList { line := 1, col := 1 } (by decide)
      true
      { value := ['1'], symbol := { value := "AAPL".toList, quoted := false },
        format := .SymbolRightNoSpace }
      { pos := { line := 1, col := 6 }, input := [] }
      (by decide)

/-- C7: when the symbol-then-quantity alternative fails after consuming
input (a symbol was consumed and the quantity failed further on), the
amount choice reports exactly that failure position, not the start of the
amount; and in the remaining cases the choice reports the consumed
failure of the second alternative, or the merge of two empty failures at
the furthest of their positions. -/
theorem amount_furthest_failure :
    (∀ (s : PState) (pos : Pos),
      amount_symbol_then_quantity s = .err true pos → amount s = .err true pos) ∧
    (∀ (s : PState) (p₁ p₂ : Pos),
      amount_symbol_then_quantity s = .err false p₁ →
      amount_quantity_then_symbol s = .err true p₂ → amount s = .err true p₂) ∧
    (∀ (s : PState) (p₁ p₂ : Pos),
      amount_symbol_then_quantity s = .err false p₁ →
      amount_quantity_then_symbol s = .err false p₂ →
      amount s = .err false (Pos.max p₁ p₂)) := by
  refine ⟨?_, ?_, ?_⟩ <;> intro s
  · intro pos h
    unfold amount por
    simp only [h]
  · intro p₁ p₂ h₁ h₂
    unfold amount por
    simp only [h₁, h₂]
  · intro p₁ p₂ h₁ h₂
    unfold amount por
    simp only [h₁, h₂]

theorem amount_furthest_failure_witness :
    amount (initState "$-x") = .err true { line := 1, col := 3 } ∧
    ({ line := 1, col := 3 } : Pos) ≠ { line := 1, col := 1 } :=
  ⟨amount_furthest_failure.1 (initState "$-x") { line := 1, col := 3 } (by decide),
   by decide⟩

theorem two_digits_spec_witness :
    two_digits { pos := { line := 1, col := 1 }, input := ['2', '7'] } =
      .ok true (27 : Int) { pos := { line := 1, col := 3 }, input := [] } ∧
    two_digits { pos := { line := 1, col := 1 }, input := ['2', 'x'] } =
      .err true { line := 1, col := 2 } := by
  constructor
  · have h := two_digits_spec.1 '2' '7' [] { line := 1, col := 1 } (by decide) (by decide)
    exact h.trans (by decide)
  · have h := two_digits_spec.2.2.1 '2' 'x' [] { line := 1, col := 1 } (by decide) (by decide)
    exact h.trans (by decide)

lemma quantity_run (pos : Pos) (d : Char) (l : List Char)
    (hd : d.isDigit = true) (hl : ∀ x ∈ l, quantityChar x = true) :
    (quantity { pos := pos, input := d :: l } =
      .ok true (removeCommas (d :: l)) { pos := pos.advance (d :: l), input := [] }) ∧
    (quantity { pos := pos, input := '-' :: d :: l } =
      .ok true (removeCommas ('-' :: d :: l))
        { pos := pos.advance ('-' :: d :: l), input := [] }) := by
  have hmin : (d == '-') = false := digit_ne_minus d hd
  have htake : l.takeWhile quantityChar = l := List.takeWhile_eq_self_iff.mpr hl
  have hdrop : l.dropWhile quantityChar = [] := List.dropWhile_eq_nil_iff.mpr hl
  constructor
  · simp [quantity, pbind, pmap, poptional, pchar, satisfy, hmin, hd, many_satisfy,
      htake, hdrop, Pos.advance]
  · simp [quantity, pbind, pmap, poptional, pchar, satisfy, hmin, hd, many_satisfy,
      htake, hdrop, Pos.advance]

/-- C6: quantity normalization is idempotent: if the quantity parser fully
consumes an input producing output q, then on q it succeeds, fully
consumes it, and produces q again; the output never contains a comma. -/
theorem quantity_idempotent (s : PState) (cns : Bool) (q : List Char) (s' : PState)
    (h : quantity s = .ok cns q s') (hfull : s'.input = []) :
    ',' ∉ q ∧ ∀ pos₂ : Pos,
      quantity { pos := pos₂, input := q } =
        .ok true q { pos := pos₂.advance q, input := [] } := by
  obtain ⟨c₁, neg, s₁, c₂, hneg, h₂, hc⟩ := pbind_ok h
  obtain ⟨c₃, d, s₂, c₄, hd, h₃, hc'⟩ := pbind_ok h₂
  obtain ⟨o, hopt, hnegval⟩ := pmap_ok hneg
  obtain ⟨hins₁, hdig, hc₃, hpos₂⟩ := satisfy_ok hd
  obtain ⟨ds, hmany, hq⟩ := pmap_ok h₃
  rw [many_satisfy] at hmany
  injection hmany with hflag hds hs'
  have hall : ∀ x ∈ s₂.input, quantityChar x = true := by
    apply List.dropWhile_eq_nil_iff.mp
    rw [← hs'] at hfull
    exact hfull
  have htake : s₂.input.takeWhile quantityChar = s₂.input :=
    List.takeWhile_eq_self_iff.mpr hall
  set l' := removeCommas s₂.input with hl'def
  have hl' : ∀ x ∈ l', quantityChar x = true := fun x hx =>
    hall x (List.mem_of_mem_filter hx)
  have hnocomma : ∀ x ∈ l', (!(x == ',')) = true := fun x hx =>
    (List.mem_filter.mp hx).2
  have hdc : (!(d == ',')) = true := digit_not_comma d hdig
  have hqval : q = removeCommas (neg ++ d :: s₂.input) := by
    rw [hq, ← hds, htake]
  have hcommaq : ',' ∉ removeCommas (neg ++ d :: s₂.input) := by
    intro hmem
    have := (List.mem_filter.mp hmem).2
    simp at this
  have hfiltl : removeCommas s₂.input = l' := rfl
  rcases poptional_ok hopt with ⟨a, hpa, ho⟩ | ⟨ho, hc₁, hs₁⟩
  · obtain ⟨hins, hpred, hca, hposa⟩ := satisfy_ok hpa
    have ha : a = '-' := by simpa using hpred
    subst ha
    have hnegl : neg = ['-'] := by rw [hnegval, ho]
    have hqform : q = '-' :: d :: l' := by
      rw [hqval, hnegl]
      unfold removeCommas
      simp [hdc]
      exact hfiltl
    refine ⟨by rw [hqval]; exact hcommaq, ?_⟩
    intro pos₂
    rw [hqform]
    rw [(quantity_run pos₂ d l' hdig hl').2]
    have hrc : removeCommas ('-' :: d :: l') = '-' :: d :: l' := by
      unfold removeCommas
      simp [hdc]
      intro x hx
      have hx' := hnocomma x hx
      simpa using hx'
    rw [hrc]
  · have hnegl : neg = [] := by rw [hnegval, ho]
    have hqform : q = d :: l' := by
      rw [hqval, hnegl]
      unfold removeCommas
      simp [hdc]
      exact hfiltl
    refine ⟨by rw [hqval]; exact hcommaq, ?_⟩
    intro pos₂
    rw [hqform]
    rw [(quantity_run pos₂ d l' hdig hl').1]
    have hrc : removeCommas (d :: l') = d :: l' := by
      unfold removeCommas
      simp [hdc]
      intro x hx
      have hx' := hnocomma x hx
      simpa using hx'
    rw [hrc]

theorem quantity_idempotent_witness :
    ',' ∉ ['1', '2'] ∧
    quantity { pos := { line := 1, col := 1 }, input := ['1', '2'] } =
      .ok true ['1', '2'] { pos := { line := 1, col := 3 }, input := [] } := by
  have h := quantity_idempotent (initState "1,2") true ['1', '2']
    { pos := { line := 1, col := 4 }, input := [] } (by decide) (by decide)
  exact ⟨h.1, (h.2 { line := 1, col := 1 }).trans (by decide)⟩

lemma Pos.advance_append (p : Pos) (l₁ l₂ : List Char) :
    Pos.advance p (l₁ ++ l₂) = Pos.advance (Pos.advance p l₁) l₂ := by
  simp [Pos.advance]

lemma sepText_head (rs : List (List Char)) :
    sepText rs = [] ∨ (sepText rs).head? = some '\n' := by
  cases rs <;> simp [sepText]

lemma line_ending_newline (pos : Pos) (tail : List Char) :
    line_ending { pos := pos, input := '\n' :: tail } =
      .ok true ['\n'] { pos := pos.next '\n', input := tail } := by
  have h1 : ('\n' == '\r') = false := by decide
  have h2 : ('\n' == '\n') = true := by decide
  simp [line_ending, por, crlf, pwith, pbind, pchar, satisfy, pmap, h1, h2]

lemma sep_price_step (pos : Pos) (r : List Char) (P : Price) (tail : List Char)
    (hr : PriceLine r P) (htail : tail = [] ∨ tail.head? = some '\n') :
    pwith line_ending price { pos := pos, input := '\n' :: (r ++ tail) } =
      .ok true P { pos := (pos.next '\n').advance r, input := tail } := by
  have hpr := hr (pos.next '\n') tail htail
  unfold pwith pbind
  simp only [line_ending_newline, hpr]
  rfl

lemma sep_step_nil (pos : Pos) :
    pwith line_ending price { pos := pos, input := [] } = .err false pos := by
  simp [pwith, pbind, line_ending, por, crlf, pchar, satisfy, pmap, Pos.max_self]

lemma manySep {rs : List (List Char)} {Ps : List Price}
    (h : List.Forall₂ PriceLine rs Ps) :
    ∀ (pos : Pos) (fuel : Nat), (sepText rs).length < fuel →
      manyAux (pwith line_ending price) fuel { pos := pos, input := sepText rs } =
        .ok (!rs.isEmpty) Ps { pos := pos.advance (sepText rs), input := [] } := by
  induction h with
  | nil =>
      intro pos fuel hf
      rcases fuel with _ | f
      · simp [sepText] at hf
      · simp [manyAux, sepText, sep_step_nil, Pos.advance]
  | cons hr htail ih =>
      rename_i r P rs' Ps'
      intro pos fuel hf
      rcases fuel with _ | f
      · simp [sepText] at hf
      · have hstep := sep_price_step pos r P (sepText rs') hr (sepText_head rs')
        have hf' : (sepText rs').length < f := by
          simp [sepText] at hf
          omega
        have hih := ih ((pos.next '\n').advance r) f hf'
        show manyAux (pwith line_ending price) (f + 1)
            { pos := pos, input := sepText (r :: rs') } = _
        unfold sepText manyAux
        simp only [hstep, hih]
        simp [sepText, Pos.advance_append, Pos.advance]

lemma price_nil_err (pos : Pos) :
    price { pos := pos, input := [] } = .err false pos := by
  simp [price, pskip, pbind, pmap, pchar, satisfy]

lemma sepBy_ok_of {α β : Type} {p : Parser α} {sep : Parser β} {s : PState}
    {c₁ : Bool} {a : α} {s₁ : PState} {c₂ : Bool} {as : List α} {s₂ : PState}
    (hp : p s = .ok c₁ a s₁) (hm : many (pwith sep p) s₁ = .ok c₂ as s₂) :
    sepBy p sep s = .ok (c₁ || c₂) (a :: as) s₂ := by
  unfold sepBy
  simp only [hp, hm]

lemma priceLine_example : PriceLine exampleRecord examplePrice := by
  intro pos rest hrest
  rcases hrest with h | h
  · subst h
    simp +decide [PriceLine, exampleRecord, examplePrice, price, pskip, pbind, pmap,
      pmapPanic, date, two_digits, many_satisfy, satisfy, pchar, poptional, por,
      parseI32, charToDigit, two_digits_to_int, quantity, removeCommas, symbol,
      quoted_symbol, unquoted_symbol, many1, amount, amount_symbol_then_quantity,
      amount_quantity_then_symbol, whitespace, unquotedSymbolChar, quantityChar,
      Pos.next, Pos.advance, List.takeWhile_cons, List.dropWhile_cons]
  · rcases rest with _ | ⟨c, t⟩
    · simp at h
    · simp at h
      subst h
      simp +decide [PriceLine, exampleRecord, examplePrice, price, pskip, pbind, pmap,
        pmapPanic, date, two_digits, many_satisfy, satisfy, pchar, poptional, por,
        parseI32, charToDigit, two_digits_to_int, quantity, removeCommas, symbol,
        quoted_symbol, unquoted_symbol, many1, amount, amount_symbol_then_quantity,
        amount_quantity_then_symbol, whitespace, unquotedSymbolChar, quantityChar,
        Pos.next, Pos.advance, List.takeWhile_cons, List.dropWhile_cons]

/-- C8: the price-database parser returns the records in file order: for
every list of price lines it returns exactly those records, one per line,
with the empty input yielding the empty sequence (the general statement,
the empty input, and the three-record example of the spec with dates
2015-10-23, 2015-10-25, 2015-10-25). -/
theorem price_db_spec :
    (∀ (rs : List (List Char)) (Ps : List Price), List.Forall₂ PriceLine rs Ps →
      ∀ pos : Pos,
        price_db { pos := pos, input := dbText rs } =
          .ok (!rs.isEmpty) Ps { pos := pos.advance (dbText rs), input := [] }) ∧
    price_db (initState "") = .ok false [] (initState "") ∧
    price_db (initState
        "P 2015-10-23 \"MUTF2351\" $5.42\nP 2015-10-25 \"MUTF2351\" $5.98\nP 2015-10-25 AAPL $313.38") =
      .ok true
        [ Price.mk (Date.mk 2015 10 23) (Symbol.mk "MUTF2351".toList true)
            (Amount.mk "5.42".toList (Symbol.mk "$".toList false) .SymbolLeftNoSpace),
          Price.mk (Date.mk 2015 10 25) (Symbol.mk "MUTF2351".toList true)
            (Amount.mk "5.98".toList (Symbol.mk "$".toList false) .SymbolLeftNoSpace),
          Price.mk (Date.mk 2015 10 25) (Symbol.mk "AAPL".toList false)
            (Amount.mk "313.38".toList (Symbol.mk "$".toList false) .SymbolLeftNoSpace) ]
        { pos := { line := 3, col := 26 }, input := [] } := by
  refine ⟨?_, by decide, by decide⟩
  intro rs Ps h pos
  cases h with
  | nil =>
      show price_db { pos := pos, input := dbText [] } = _
      simp [price_db, sepBy, dbText, price_nil_err, Pos.advance]
  | cons hr htail =>
      rename_i r P rs' Ps'
      have hpr := hr pos (sepText rs') (sepText_head rs')
      have hm : many (pwith line_ending price)
          { pos := pos.advance r, input := sepText rs' } =
          .ok (!rs'.isEmpty) Ps'
            { pos := (pos.advance r).advance (sepText rs'), input := [] } := by
        unfold many
        exact manySep htail (pos.advance r) ((sepText rs').length + 1)
          (Nat.lt_succ_self _)
      have hfin := sepBy_ok_of hpr hm
      show price_db { pos := pos, input := dbText (r :: rs') } = _
      simp only [dbText]
      unfold price_db
      rw [hfin]
      simp [Pos.advance_append]

theorem price_db_spec_witness :
    price_db { pos := { line := 1, col := 1 }, input := dbText [exampleRecord, exampleRecord] } =
      .ok true [examplePrice, examplePrice]
        { pos := { line := 2, col := 30 }, input := [] } := by
  have h := price_db_spec.1 [exampleRecord, exampleRecord] [examplePrice, examplePrice]
    (List.Forall₂.cons priceLine_example
      (List.Forall₂.cons priceLine_example List.Forall₂.nil))
    { line := 1, col := 1 }
  exact h.trans (by decide)

lemma sepTextTrail_head (rs : List (List Char)) :
    sepText rs ++ ['\n'] = [] ∨ (sepText rs ++ ['\n']).head? = some '\n' := by
  cases rs <;> simp [sepText]

lemma sep_step_trail (pos : Pos) :
    pwith line_ending price { pos := pos, input := ['\n'] } = .err true (pos.next '\n') := by
  unfold pwith pbind
  simp only [line_ending_newline, price_nil_err]
  rfl

lemma manySepTrail {rs : List (List Char)} {Ps : List Price}
    (h : List.Forall₂ PriceLine rs Ps) :
    ∀ (pos : Pos) (fuel : Nat), (sepText rs).length + 1 < fuel →
      manyAux (pwith line_ending price) fuel
          { pos := pos, input := sepText rs ++ ['\n'] } =
        .err true ((pos.advance (sepText rs)).next '\n') := by
  induction h with
  | nil =>
      intro pos fuel hf
      rcases fuel with _ | f
      · simp [sepText] at hf
      · show manyAux _ (f + 1) { pos := pos, input := sepText [] ++ ['\n'] } = _
        unfold manyAux
        simp [sepText, sep_step_trail, Pos.advance]
  | cons hr htail ih =>
      rename_i r P rs' Ps'
      intro pos fuel hf
      rcases fuel with _ | f
      · simp [sepText] at hf
      · have hstep : pwith line_ending price
            { pos := pos, input := '\n' :: (r ++ (sepText rs' ++ ['\n'])) } =
            .ok true P
              { pos := (pos.next '\n').advance r, input := sepText rs' ++ ['\n'] } :=
          sep_price_step pos r P (sepText rs' ++ ['\n']) hr (sepTextTrail_head rs')
        have hf' : (sepText rs').length + 1 < f := by
          simp [sepText] at hf
          omega
        have hih := ih ((pos.next '\n').advance r) f hf'
        show manyAux (pwith line_ending price) (f + 1)
            { pos := pos, input := sepText (r :: rs') ++ ['\n'] } = _
        have hin : sepText (r :: rs') ++ ['\n'] = '\n' :: (r ++ (sepText rs' ++ ['\n'])) := by
          simp [sepText]
        rw [hin]
        unfold manyAux
        simp only [hstep, hih]
        simp [sepText, Pos.advance_append, Pos.advance]

lemma sepBy_err_of {α β : Type} {p : Parser α} {sep : Parser β} {s : PState}
    {c₁ : Bool} {a : α} {s₁ : PState} {c₂ : Bool} {pos : Pos}
    (hp : p s = .ok c₁ a s₁) (hm : many (pwith sep p) s₁ = .err c₂ pos) :
    sepBy p sep s = .err (c₁ || c₂) pos := by
  unfold sepBy
  simp only [hp, hm]

/-- C10: the price-database parser fails on every input of one or more
valid price records, separated by single line feeds, followed by a
trailing line feed at end of input: the separator commits once consumed,
so the parse returns a consumed failure positioned just after the trailing
line ending rather than the sequence of records parsed so far; in
particular the single-record example fails at line 2, column 1. -/
theorem price_db_trailing_newline_fails :
    (∀ (r : List Char) (rs : List (List Char)) (Ps : List Price),
      List.Forall₂ PriceLine (r :: rs) Ps → ∀ pos : Pos,
        price_db { pos := pos, input := dbText (r :: rs) ++ ['\n'] } =
          .err true ((pos.advance (dbText (r :: rs))).next '\n')) ∧
    price_db (initState "P 2015-10-25 \"MUTF2351\" $5.42\n") =
      .err true { line := 2, col := 1 } := by
  refine ⟨?_, by decide⟩
  intro r rs Ps h pos
  cases h with
  | cons hr htail =>
      rename_i P Ps'
      have hpr := hr pos (sepText rs ++ ['\n']) (sepTextTrail_head rs)
      have hm : many (pwith line_ending price)
          { pos := pos.advance r, input := sepText rs ++ ['\n'] } =
          .err true (((pos.advance r).advance (sepText rs)).next '\n') := by
        unfold many
        exact manySepTrail htail (pos.advance r) ((sepText rs ++ ['\n']).length + 1)
          (by simp [List.length_append])
      rw [← List.append_assoc] at hpr
      have hfin := sepBy_err_of hpr hm
      show price_db { pos := pos, input := dbText (r :: rs) ++ ['\n'] } = _
      have hin : dbText (r :: rs) ++ ['\n'] = (r ++ sepText rs) ++ ['\n'] := by
        simp [dbText]
      rw [hin]
      unfold price_db
      rw [hfin]
      simp [dbText, Pos.advance_append]

theorem price_db_trailing_newline_fails_witness :
    price_db { pos := { line := 1, col := 1 }, input := dbText [exampleRecord] ++ ['\n'] } =
      .err true { line := 2, col := 1 } := by
  have h := price_db_trailing_newline_fails.1 exampleRecord [] [examplePrice]
    (List.Forall₂.cons priceLine_example List.Forall₂.nil) { line := 1, col := 1 }
  exact h.trans (by decide)

end WealthPulse
